import Mathlib

/-!
Verification development for the AlgBench `Benchmark` class
(`src/algbench/benchmark.py`).

The embedding models:
- JSON-compatible values (`JValue`) — the universe of parameter and result
  data after serialization;
- the fingerprinting function (`fingerprint`) — modelled from the spec,
  since `fingerprint.py` is not part of the provided sources: it
  canonicalizes (sorts mapping keys recursively) and hashes; the hash is
  injective by design assumption, so the canonical form itself stands for
  the digest;
- Python signature binding (`bindArgs`), default merging (`funcArgs`) and
  the argument-data construction `Benchmark._get_arg_data` (`getArgData`);
- the benchmark database (`BenchmarkDb`) — modelled from the spec as a
  list of entries, since `benchmark_db.py` is not part of the provided
  sources;
- the `Benchmark` operations `exists`, `run`, `add`, `insert`, `compress`,
  `repair`, `__iter__`, `delete`, `front`, `delete_if`;
- a small Python-style heap with shallow `dict.copy`, used to analyse the
  aliasing behaviour of entries yielded by iteration.
-/

/-- Values of the JSON-compatible tree produced by the serializer:
null, booleans, numbers, text, ordered sequences, and string-keyed maps. -/
inductive JValue where
  | null : JValue
  | bool (b : Bool) : JValue
  | num (n : Int) : JValue
  | str (s : String) : JValue
  | arr (xs : List JValue) : JValue
  | obj (fields : List (String × JValue)) : JValue

mutual

/-- Structural equality test on values, standing for Python `==` on the
deserialized JSON data. -/
def JValue.beq : JValue → JValue → Bool
  | .null, .null => true
  | .bool a, .bool b => a == b
  | .num a, .num b => a == b
  | .str a, .str b => a == b
  | .arr xs, .arr ys => JValue.beqList xs ys
  | .obj fs, .obj gs => JValue.beqFields fs gs
  | _, _ => false

/-- Elementwise equality test on value sequences. -/
def JValue.beqList : List JValue → List JValue → Bool
  | [], [] => true
  | x :: xs, y :: ys => JValue.beq x y && JValue.beqList xs ys
  | _, _ => false

/-- Elementwise equality test on field lists. -/
def JValue.beqFields : List (String × JValue) → List (String × JValue) → Bool
  | [], [] => true
  | (k, v) :: fs, (k2, v2) :: gs =>
      k == k2 && JValue.beq v v2 && JValue.beqFields fs gs
  | _, _ => false

end

instance : BEq JValue := ⟨JValue.beq⟩

/-- Lexicographic order on character lists, by code point. -/
def charLe : List Char → List Char → Bool
  | [], _ => true
  | _ :: _, [] => false
  | a :: as, b :: bs => if a = b then charLe as bs else decide (a < b)

/-- Lexicographic order on strings, by code point (the order in which the
fingerprinting canonicalization sorts mapping keys). -/
def strLe (a b : String) : Bool := charLe a.data b.data

/-- Key-ordering relation used to canonicalize mapping fields:
compare the string keys lexicographically. -/
def keyLe (a b : String × JValue) : Prop := strLe a.1 b.1 = true

instance : DecidableRel keyLe := fun a b => instDecidableEqBool (strLe a.1 b.1) true

/-- Sorts the fields of a mapping by key, lexicographically. -/
def sortKeys (fs : List (String × JValue)) : List (String × JValue) :=
  fs.insertionSort keyLe

mutual

/-- Canonical form of a value: mapping keys are sorted lexicographically at
every depth. Modelled from the spec: the fingerprinter "recursively
canonicalizes the input — sort mapping keys lexicographically ... then
applies a cryptographic hash"; the hash being injective by design
assumption, the canonical form stands for the digest. -/
def canonical : JValue → JValue
  | .obj fs => .obj (sortKeys (canonicalFields fs))
  | .arr xs => .arr (canonicalList xs)
  | v => v

/-- Canonicalizes each value of a field list, keeping keys and order. -/
def canonicalFields : List (String × JValue) → List (String × JValue)
  | [] => []
  | (k, v) :: rest => (k, canonical v) :: canonicalFields rest

/-- Canonicalizes each element of a sequence. -/
def canonicalList : List JValue → List JValue
  | [] => []
  | v :: rest => canonical v :: canonicalList rest

end

/-- Modelled from the spec: `fingerprint(data)` of `fingerprint.py` (not in
the provided sources) derives a deterministic identifier from the canonical
byte rendering of `data`; equal fingerprints correspond exactly to equal
canonical forms, so the canonical form models the digest. -/
def fingerprint (v : JValue) : JValue := canonical v

/-- Modelled from the spec: `to_json` of `json_serializer.py` (not in the
provided sources) passes values of a JSON-native type through unchanged;
the embedding's value universe contains only JSON-native trees, so on it
`to_json` is the identity. -/
def to_json (v : JValue) : JValue := v

mutual

/-- Textual rendering of a value, standing for `yaml.dump` of the external
yaml library: the claims only use that the parameter set is rendered into
the printed output, not the concrete syntax. -/
def yamlDump : JValue → String
  | .null => "null"
  | .bool b => toString b
  | .num n => toString n
  | .str s => s
  | .arr xs => "(" ++ yamlDumpList xs ++ ")"
  | .obj fs => "(" ++ yamlDumpFields fs ++ ")"

/-- Renders a sequence of values, comma separated. -/
def yamlDumpList : List JValue → String
  | [] => ""
  | [v] => yamlDump v
  | v :: rest => yamlDump v ++ ", " ++ yamlDumpList rest

/-- Renders mapping fields as comma separated `key: value` pairs. -/
def yamlDumpFields : List (String × JValue) → String
  | [] => ""
  | [(k, v)] => k ++ ": " ++ yamlDump v
  | (k, v) :: rest => k ++ ": " ++ yamlDump v ++ ", " ++ yamlDumpFields rest

end

/-- Declared parameter of a Python callable: a name and an optional default
value (`inspect.Parameter`; `none` models `Parameter.empty`). Only
positional-or-keyword parameters occur in the benchmarked callables. -/
structure Param where
  name : String
  default : Option JValue

/-- Model of a Python callable as seen by `Benchmark`: its `__name__`, its
signature parameters in declaration order, and its body. The body receives
the default-merged argument mapping and either returns a result value
together with the text it writes to stdout and stderr, or raises an
exception (modelled by `Except.error` with the exception's message). -/
structure PyFunc where
  name : String
  params : List Param
  body : List (String × JValue) → Except String (JValue × String × String)

/-- Model of `inspect.signature(func).bind(*args, **kwargs).arguments`:
positional arguments bind to parameters in declaration order, keyword
arguments by name; binding raises (`Except.error`) on surplus positional
arguments, unknown keywords, a keyword repeating a positionally bound
parameter, or a missing required (default-less) parameter. -/
def bindArgs (params : List Param) (args : List JValue)
    (kwargs : List (String × JValue)) : Except String (List (String × JValue)) :=
  if args.length > params.length then
    .error "too many positional arguments"
  else
    let posNames := (params.map Param.name).take args.length
    let pos := posNames.zip args
    if kwargs.any (fun kv => params.all (fun p => p.name ≠ kv.1)) then
      .error "got an unexpected keyword argument"
    else if kwargs.any (fun kv => posNames.contains kv.1) then
      .error "multiple values for argument"
    else if params.any (fun p =>
        p.default.isNone ∧ pos.all (fun kv => kv.1 ≠ p.name)
          ∧ kwargs.all (fun kv => kv.1 ≠ p.name)) then
      .error "missing a required argument"
    else
      .ok (pos ++ kwargs)

/-- Model of Python `dict.update`: each key of `upd`, in order, overwrites
the value at its existing position in `base` or is appended at the end. -/
def updateMerge (base upd : List (String × JValue)) : List (String × JValue) :=
  upd.foldl (fun acc kv =>
    if acc.any (fun kv2 => kv2.1 = kv.1) then
      acc.map (fun kv2 => if kv2.1 = kv.1 then (kv2.1, kv.2) else kv2)
    else acc ++ [kv]) base

namespace Benchmark

/-- Merged argument mapping of a call, as built by `_get_arg_data` lines
61–66: the declared defaults (in declaration order) updated with the bound
arguments. This is also the mapping the callable's body executes under. -/
def funcArgs (f : PyFunc) (args : List JValue)
    (kwargs : List (String × JValue)) : Except String (List (String × JValue)) :=
  (bindArgs f.params args kwargs).map fun bound =>
    updateMerge (f.params.filterMap fun p => p.default.map fun d => (p.name, d)) bound

/-- Model of `key.startswith("_")` for the one-character pattern: the key's
first character is an underscore. -/
def startsWithUnderscore (s : String) : Bool := s.data.head? == some '_'

/-- Data dictionary built by `_get_arg_data` lines 67–74: the callable's
`__name__` and the merged arguments with every key starting with an
underscore removed. -/
def mkData (fname : String) (fargs : List (String × JValue)) : JValue :=
  .obj [("func", .str fname),
        ("args", .obj (fargs.filter fun kv => !startsWithUnderscore kv.1))]

/-- Model of `Benchmark._get_arg_data` (benchmark.py lines 59–76): returns
the fingerprint and the serialized form of the data dictionary, or raises
if the arguments do not bind to the signature. -/
def getArgData (f : PyFunc) (args : List JValue)
    (kwargs : List (String × JValue)) : Except String (JValue × JValue) :=
  (funcArgs f args kwargs).map fun fa =>
    (fingerprint (mkData f.name fa), to_json (mkData f.name fa))

/-- Stored entry record: fingerprint, serialized parameters, serialized
result. Modelled from the spec: an Entry combines "a fingerprint,
serialized parameters, and serialized result/metadata". -/
structure Entry where
  fingerprint : JValue
  parameters : JValue
  result : JValue

/-- Modelled from the spec: the database (`BenchmarkDb`, not in the provided
sources) is an unordered durable collection of entries; a list of entries
models its readable contents. -/
abbrev Db := List Entry

/-- Modelled from the spec: `contains_fingerprint` reports whether some
stored entry has the given fingerprint. -/
def dbContains (db : Db) (fp : JValue) : Bool :=
  db.any fun e => JValue.beq e.fingerprint fp

/-- Modelled from the spec: `BenchmarkDb.add` durably appends a new entry
built from the fingerprint, argument data and result record. -/
def dbAdd (db : Db) (fp argData result : JValue) : Db :=
  db ++ [⟨fp, argData, result⟩]

/-- Modelled from the spec: `BenchmarkDb.insert` appends a previously
constructed entry verbatim. -/
def dbInsert (db : Db) (e : Entry) : Db :=
  db ++ [e]

/-- Modelled from the spec: `compress` rewrites the physical layout and
"must preserve every distinct Entry", keeping duplicates; the readable
contents are unchanged. -/
def dbCompress (db : Db) : Db := db

/-- Modelled from the spec: `delete` irreversibly removes the entire
collection. -/
def dbDelete (_db : Db) : Db := ([] : List Entry)

/-- Serialized result record stored by `run` (benchmark.py lines 107–113):
the returned value, the timestamp taken at invocation, the measured
runtime, and the captured stdout/stderr text. -/
def resultRecord (r : JValue) (timestamp : String) (runtime : Int)
    (out err : String) : JValue :=
  .obj [("result", r), ("timestamp", .str timestamp), ("runtime", .num runtime),
        ("stdout", .str out), ("stderr", .str err)]

/-- Diagnostic report printed by `run` on a computation failure
(benchmark.py lines 117–124): blank line, header, separator, the yaml dump
of the argument data, separator, the error, the traceback, separator. -/
def errorReport (argData : JValue) (e : String) : List String :=
  ["", "Exception while running benchmark.", "=====================================",
   yamlDump argData, "-------------------------------------",
   "ERROR: " ++ e, "Traceback (most recent call last): " ++ e,
   "-------------------------------------"]

/-- Observable outcome of a `Benchmark` operation: the database contents
afterwards, the lines printed to the real console by this call, and the
exception propagated to the caller, if any. -/
structure RunResult where
  db : Db
  printed : List String
  error : Option String

/-- Model of `Benchmark.run` (benchmark.py lines 89–125). `timestamp` and
`runtime` are environment inputs (wall clock and timer). Argument binding
errors propagate before anything runs; on success the entry is stored and
a dot is printed; on a body exception the diagnostic report is printed,
nothing is stored, and the exception is re-raised. -/
def run (db : Db) (f : PyFunc) (args : List JValue)
    (kwargs : List (String × JValue)) (timestamp : String) (runtime : Int) :
    RunResult :=
  match funcArgs f args kwargs with
  | .error e => ⟨db, [], some e⟩
  | .ok fa =>
    let fingp := fingerprint (mkData f.name fa)
    let argData := to_json (mkData f.name fa)
    match f.body fa with
    | .ok (r, out, err) =>
        ⟨dbAdd db fingp argData (to_json (resultRecord r timestamp runtime out err)),
         ["."], none⟩
    | .error e => ⟨db, errorReport argData e, some e⟩

/-- Model of `Benchmark.exists` (benchmark.py lines 78–87): compute the
fingerprint and ask the database whether it is contained. -/
def exists' (db : Db) (f : PyFunc) (args : List JValue)
    (kwargs : List (String × JValue)) : Except String Bool :=
  (getArgData f args kwargs).map fun p => dbContains db p.1

/-- Model of `Benchmark.add` (benchmark.py lines 127–137): run the call
only when `exists` is false; a binding error propagates from `exists`. -/
def add (db : Db) (f : PyFunc) (args : List JValue)
    (kwargs : List (String × JValue)) (timestamp : String) (runtime : Int) :
    RunResult :=
  match exists' db f args kwargs with
  | .error e => ⟨db, [], some e⟩
  | .ok true => ⟨db, [], none⟩
  | .ok false => run db f args kwargs timestamp runtime

/-- Model of `Benchmark.insert` (benchmark.py lines 139–143). -/
def insert (db : Db) (e : Entry) : Db := dbInsert db e

/-- Model of `Benchmark.compress` (benchmark.py lines 145–151). -/
def compress (db : Db) : Db := dbCompress db

/-- Model of `Benchmark.__iter__` (benchmark.py lines 161–167): each stored
entry is yielded (the per-entry `.copy()` and the heap behaviour of the
yielded objects are analysed separately with the heap model below). -/
def iter (db : Db) : List Entry := db

/-- Model of `Benchmark.delete` (benchmark.py lines 169–175). -/
def delete (db : Db) : Db := dbDelete db

/-- Model of `Benchmark.front` (benchmark.py lines 177–182). -/
def front (db : Db) : Option Entry := (iter db).head?

/-- Model of `Benchmark.delete_if` (benchmark.py lines 184–205): copy every
entry not matching the condition into a temporary benchmark, delete this
one, copy the temporary benchmark's entries back, compress, and delete the
temporary benchmark. -/
def delete_if (db : Db) (condition : Entry → Bool) : Db :=
  let tmp := (iter db).foldl
    (fun acc e => if !condition e then insert acc e else acc) ([] : List Entry)
  let emptied := dbDelete db
  let restored := (iter tmp).foldl (fun acc e => insert acc e) emptied
  dbCompress restored

/-- Model of `Benchmark.repair` (benchmark.py lines 153–159). -/
def repair (db : Db) : Db :=
  delete_if db fun _ => false

end Benchmark

namespace Benchmark

/-- Record shape in which an entry is yielded to the caller by iteration,
per the docstring of `Benchmark` (`entry["parameters"]`, `entry["data"]`). -/
def entryValue (e : Entry) : JValue :=
  .obj [("fingerprint", e.fingerprint), ("parameters", e.parameters),
        ("data", e.result)]

end Benchmark

/-- Python in-memory object: either an immutable leaf value or a dictionary
whose fields hold addresses of other heap objects. -/
inductive PyObj where
  | val (v : JValue) : PyObj
  | dict (fields : List (String × Nat)) : PyObj

/-- Python heap: objects addressed by their position. -/
abbrev Heap := List PyObj

mutual

/-- Deserializes a stored value into fresh heap objects, as the database
does when re-scanning its persisted entries for an iteration: mappings
become dictionary objects, everything else a leaf. Returns the extended
heap and the address of the root object. -/
def materialize : JValue → Heap → Heap × Nat
  | .obj fs, h =>
      let p := materializeFields fs h
      (p.1 ++ [.dict p.2], p.1.length)
  | v, h => (h ++ [.val v], h.length)

/-- Deserializes each field value in turn, accumulating the heap. -/
def materializeFields : List (String × JValue) → Heap → Heap × List (String × Nat)
  | [], h => (h, [])
  | (k, v) :: rest, h =>
      let p := materialize v h
      let q := materializeFields rest p.1
      (q.1, (k, p.2) :: q.2)

end

mutual

/-- Nesting depth of a value, used as read-back fuel. -/
def jdepth : JValue → Nat
  | .obj fs => jdepthFields fs + 1
  | _ => 1

/-- Maximal nesting depth over a field list. -/
def jdepthFields : List (String × JValue) → Nat
  | [] => 0
  | (_, v) :: rest => max (jdepth v) (jdepthFields rest)

end

mutual

/-- Reads the value denoted by a heap object back, following dictionary
fields; `fuel` bounds the depth. -/
def readback : Nat → Heap → Nat → Option JValue
  | 0, _, _ => none
  | fuel + 1, h, a =>
    match h[a]? with
    | some (.val v) => some v
    | some (.dict fs) => (readbackFields fuel h fs).map JValue.obj
    | none => none
termination_by fuel _ _ => (fuel, 0)

/-- Reads each field of a dictionary back. -/
def readbackFields : Nat → Heap → List (String × Nat) → Option (List (String × JValue))
  | _, _, [] => some []
  | fuel, h, (k, a) :: rest => do
    let v ← readback fuel h a
    let vs ← readbackFields fuel h rest
    pure ((k, v) :: vs)
termination_by fuel _ fs => (fuel, fs.length + 1)

end

/-- Model of Python `dict.copy()` as used by `Benchmark.__iter__` line 167:
allocates a new top-level dictionary sharing the same field addresses (a
shallow copy); on a non-dictionary it duplicates the object. -/
def copyDict (h : Heap) (a : Nat) : Heap × Nat :=
  match h[a]? with
  | some o => (h ++ [o], h.length)
  | none => (h, a)

/-- In-place mutation of a materialized object: follows the given key path
through dictionary fields and replaces the object reached at its end (any
nesting depth, including through addresses shared by a shallow copy). -/
def setPath (h : Heap) (a : Nat) : List String → JValue → Heap
  | [], v => h.set a (.val v)
  | k :: rest, v =>
    match h[a]? with
    | some (.dict fs) =>
      match fs.lookup k with
      | some a2 => setPath h a2 rest v
      | none => h
    | _ => h

/-- One iteration step followed by a caller mutation: the stored entry is
deserialized into fresh heap objects (the database re-reads its persisted
data on every scan), the top-level dictionary is shallow-copied as by
`Benchmark.__iter__` line 167, and the copy is mutated in place at the
given key path; returns the resulting heap. -/
def yieldAndMutate (e : Benchmark.Entry) (h : Heap) (p : List String)
    (v : JValue) : Heap :=
  let m := materialize (Benchmark.entryValue e) h
  let c := copyDict m.1 m.2
  setPath c.1 c.2 p v

/-- Re-scanning one stored entry afterwards: deserialize it afresh from the
store's persisted data into the given heap and read the resulting object
back. -/
def rescanEntry (e : Benchmark.Entry) (h : Heap) : Option JValue :=
  let m := materialize (Benchmark.entryValue e) h
  readback (jdepth (Benchmark.entryValue e)) m.1 m.2

namespace Benchmark

/-- Concrete callable used to instantiate theorems: the docstring example
`f(x, _test=2, default="default")`, returning a small result dictionary
and writing to stdout and stderr. -/
def okFunc : PyFunc :=
  ⟨"f", [⟨"x", none⟩, ⟨"_test", some (.num 2)⟩, ⟨"default", some (.str "default")⟩],
   fun fa => .ok (.obj [("r1", (fa.lookup "x").getD .null), ("r2", .str "test")],
     "out", "err")⟩

/-- Merged argument mapping of the call `okFunc(1)`. -/
def faFix : List (String × JValue) :=
  [("_test", .num 2), ("default", .str "default"), ("x", .num 1)]

/-- Concrete callable with the same name and signature as `okFunc` but a
different body. -/
def okFuncAlt : PyFunc :=
  ⟨"f", [⟨"x", none⟩, ⟨"_test", some (.num 2)⟩, ⟨"default", some (.str "default")⟩],
   fun _ => .ok (.num 42, "", "")⟩

/-- Concrete callable whose body always raises. -/
def failFunc : PyFunc :=
  ⟨"g", [⟨"x", none⟩], fun _ => .error "boom"⟩

/-- Concrete two-required-parameter callable used for keyword-order
instances. -/
def twoParamFunc : PyFunc :=
  ⟨"h", [⟨"x", none⟩, ⟨"y", none⟩], fun _ => .ok (.null, "", "")⟩

/-- Concrete stored entry used for iteration instances. -/
def entryFix : Entry :=
  ⟨.str "fp", .obj [("x", .num 1)], .obj [("r1", .num 1)]⟩

end Benchmark

mutual

/-- Reflexivity of the structural equality test on values. -/
theorem JValue.beq_refl : ∀ v : JValue, JValue.beq v v = true
  | .null => rfl
  | .bool b => by simp [JValue.beq]
  | .num n => by simp [JValue.beq]
  | .str s => by simp [JValue.beq]
  | .arr xs => by simp [JValue.beq, JValue.beqList_refl xs]
  | .obj fs => by simp [JValue.beq, JValue.beqFields_refl fs]

/-- Reflexivity of the elementwise equality test on sequences. -/
theorem JValue.beqList_refl : ∀ xs : List JValue, JValue.beqList xs xs = true
  | [] => rfl
  | x :: xs => by simp [JValue.beqList, JValue.beq_refl x, JValue.beqList_refl xs]

/-- Reflexivity of the elementwise equality test on field lists. -/
theorem JValue.beqFields_refl : ∀ fs : List (String × JValue), JValue.beqFields fs fs = true
  | [] => rfl
  | (k, v) :: fs => by
      simp [JValue.beqFields, JValue.beq_refl v, JValue.beqFields_refl fs]

end

namespace Benchmark

/-- Folding the filtered insert of `delete_if` accumulates exactly the
entries for which the condition is false, in order. -/
theorem foldl_insert_filter (cond : Entry → Bool) (db : List Entry) :
    ∀ acc : List Entry,
      db.foldl (fun acc e => if !cond e then insert acc e else acc) acc
        = acc ++ db.filter (fun e => !cond e) := by
  induction db with
  | nil => intro acc; simp
  | cons e db ih =>
    intro acc
    by_cases h : cond e
    · simpa [List.filter_cons, h, insert, dbInsert] using ih acc
    · simpa [List.filter_cons, h, insert, dbInsert, List.append_assoc]
        using ih (acc ++ [e])

/-- Folding plain inserts appends the folded list. -/
theorem foldl_insert_append (l : List Entry) :
    ∀ acc : List Entry, l.foldl (fun acc e => insert acc e) acc = acc ++ l := by
  induction l with
  | nil => intro acc; simp
  | cons e l ih =>
    intro acc
    simpa [insert, dbInsert, List.append_assoc] using ih (acc ++ [e])

/-- Rebuilding by `delete_if` amounts to filtering out the matching
entries. -/
theorem delete_if_eq_filter (db : Db) (cond : Entry → Bool) :
    delete_if db cond = db.filter (fun e => !cond e) := by
  simp only [delete_if, iter, dbDelete, dbCompress]
  rw [foldl_insert_filter, foldl_insert_append]
  simp

/-- C5: for every store and every predicate `p`, after `delete_if p`
completes, iterating the store yields exactly those entries previously
stored for which `p` was false. -/
theorem delete_if_keeps_exactly_non_matching (db : Db) (p : Entry → Bool) :
    iter (delete_if db p) = (iter db).filter (fun e => !p e) := by
  simp [iter, delete_if_eq_filter]

/-- C10: `repair` is exactly `delete_if` with the constant-false predicate,
and after `repair` iteration yields the same entries as before: no entry
is removed. -/
theorem repair_is_delete_if_false (db : Db) :
    repair db = delete_if db (fun _ => false) ∧ iter (repair db) = iter db := by
  refine ⟨rfl, ?_⟩
  simp [repair, iter, delete_if_eq_filter]

/-- Argument data depends only on the callable's name and signature, never
on its body. -/
theorem getArgData_eq_of_sig (f g : PyFunc) (hname : f.name = g.name)
    (hparams : f.params = g.params) (args : List JValue)
    (kwargs : List (String × JValue)) :
    getArgData f args kwargs = getArgData g args kwargs := by
  cases f; cases g
  cases hname; cases hparams
  rfl

/-- After storing the entry of a call, the existence check for that call
reports true. -/
theorem exists'_dbAdd_self (db : Db) (f : PyFunc) (args : List JValue)
    (kwargs : List (String × JValue)) (fa : List (String × JValue))
    (res : JValue) (hfa : funcArgs f args kwargs = .ok fa) :
    exists' (dbAdd db (fingerprint (mkData f.name fa))
        (to_json (mkData f.name fa)) res) f args kwargs = .ok true := by
  simp [exists', getArgData, hfa, dbAdd, dbContains, Except.map, JValue.beq_refl]

end Benchmark

namespace Benchmark

/-- C7: for every successful `run`, the stored entry's result record
carries the computation's return value together with the timestamp taken
at invocation, the elapsed runtime, and the captured stdout/stderr text;
only a progress dot reaches the console, not the captured text. -/
theorem run_stores_full_result (db : Db) (f : PyFunc) (args : List JValue)
    (kwargs fa : List (String × JValue)) (ts : String) (rt : Int)
    (r : JValue) (out err : String)
    (hfa : funcArgs f args kwargs = .ok fa)
    (hbody : f.body fa = .ok (r, out, err)) :
    run db f args kwargs ts rt =
      ⟨dbAdd db (fingerprint (mkData f.name fa)) (to_json (mkData f.name fa))
          (to_json (resultRecord r ts rt out err)), ["."], none⟩ := by
  simp [run, hfa, hbody]

/-- Witness for C7 at the call `okFunc(1)`. -/
theorem run_stores_full_result_witness :
    funcArgs okFunc [.num 1] [] = .ok faFix
    ∧ okFunc.body faFix = .ok (.obj [("r1", .num 1), ("r2", .str "test")], "out", "err")
    ∧ run [] okFunc [.num 1] [] "t0" 7 =
        ⟨dbAdd [] (fingerprint (mkData okFunc.name faFix))
            (to_json (mkData okFunc.name faFix))
            (to_json (resultRecord (.obj [("r1", .num 1), ("r2", .str "test")])
              "t0" 7 "out" "err")), ["."], none⟩ :=
  ⟨rfl, rfl,
   run_stores_full_result [] okFunc [.num 1] [] faFix "t0" 7
     (.obj [("r1", .num 1), ("r2", .str "test")]) "out" "err" rfl rfl⟩

/-- C1: when the computation raises, `run` leaves the store exactly as
before (so a subsequent existence check answers as before the attempt),
prints the parameter set and the error diagnostics, and re-raises the same
exception. -/
theorem run_failure_leaves_store_unchanged (db : Db) (f : PyFunc)
    (args : List JValue) (kwargs fa : List (String × JValue)) (ts : String)
    (rt : Int) (e : String)
    (hfa : funcArgs f args kwargs = .ok fa)
    (hbody : f.body fa = .error e) :
    (run db f args kwargs ts rt).db = db
    ∧ (run db f args kwargs ts rt).error = some e
    ∧ yamlDump (to_json (mkData f.name fa)) ∈ (run db f args kwargs ts rt).printed
    ∧ ("ERROR: " ++ e) ∈ (run db f args kwargs ts rt).printed
    ∧ exists' (run db f args kwargs ts rt).db f args kwargs
        = exists' db f args kwargs := by
  simp [run, hfa, hbody, errorReport]

/-- Witness for C1 at the call `failFunc(3)`, whose body raises `boom`. -/
theorem run_failure_leaves_store_unchanged_witness :
    funcArgs failFunc [.num 3] [] = .ok [("x", .num 3)]
    ∧ failFunc.body [("x", .num 3)] = .error "boom"
    ∧ ((run [] failFunc [.num 3] [] "t0" 7).db = []
        ∧ (run [] failFunc [.num 3] [] "t0" 7).error = some "boom"
        ∧ yamlDump (to_json (mkData failFunc.name [("x", .num 3)]))
            ∈ (run [] failFunc [.num 3] [] "t0" 7).printed
        ∧ ("ERROR: " ++ "boom") ∈ (run [] failFunc [.num 3] [] "t0" 7).printed
        ∧ exists' (run [] failFunc [.num 3] [] "t0" 7).db failFunc [.num 3] []
            = exists' [] failFunc [.num 3] []) :=
  ⟨rfl, rfl,
   run_failure_leaves_store_unchanged [] failFunc [.num 3] [] [("x", .num 3)]
     "t0" 7 "boom" rfl rfl⟩

/-- C9: when the arguments do not bind to the callable's signature, the
existence check, `run` and `add` all raise before the store is touched,
and the outcome does not depend on the callable's body, which is never
invoked. -/
theorem binding_error_blocks_all_operations (db : Db) (f : PyFunc)
    (args : List JValue) (kwargs : List (String × JValue)) (ts : String)
    (rt : Int) (e : String)
    (he : bindArgs f.params args kwargs = .error e) :
    exists' db f args kwargs = .error e
    ∧ run db f args kwargs ts rt = ⟨db, [], some e⟩
    ∧ add db f args kwargs ts rt = ⟨db, [], some e⟩
    ∧ ∀ b2, run db ⟨f.name, f.params, b2⟩ args kwargs ts rt = ⟨db, [], some e⟩ := by
  have hfa : funcArgs f args kwargs = .error e := by simp [funcArgs, he, Except.map]
  have hex : exists' db f args kwargs = .error e := by
    simp [exists', getArgData, hfa, Except.map]
  refine ⟨hex, ?_, ?_, ?_⟩
  · simp [run, hfa]
  · simp [add, hex]
  · intro b2
    simp [run, funcArgs, he, Except.map]

/-- Witness for C9: calling `failFunc` with no argument misses the
required parameter `x`. -/
theorem binding_error_blocks_all_operations_witness :
    bindArgs failFunc.params [] [] = .error "missing a required argument"
    ∧ (exists' [] failFunc [] [] = .error "missing a required argument"
        ∧ run [] failFunc [] [] "t0" 7 = ⟨[], [], some "missing a required argument"⟩
        ∧ add [] failFunc [] [] "t0" 7 = ⟨[], [], some "missing a required argument"⟩
        ∧ ∀ b2, run [] ⟨failFunc.name, failFunc.params, b2⟩ [] [] "t0" 7
            = ⟨[], [], some "missing a required argument"⟩) :=
  ⟨rfl,
   binding_error_blocks_all_operations [] failFunc [] [] "t0" 7
     "missing a required argument" rfl⟩

end Benchmark

namespace Benchmark

/-- C2: `add` writes the entry exactly when the existence check is false;
after one successful `add` the existence check is true, and a second `add`
for the same arguments leaves the store unchanged, prints nothing, and does
not depend on the callable's body, which is not re-run. -/
theorem add_runs_only_when_absent (db : Db) (f : PyFunc) (args : List JValue)
    (kwargs fa : List (String × JValue)) (ts1 ts2 : String) (rt1 rt2 : Int)
    (r : JValue) (out err : String)
    (hex : exists' db f args kwargs = .ok false)
    (hfa : funcArgs f args kwargs = .ok fa)
    (hbody : f.body fa = .ok (r, out, err)) :
    (add db f args kwargs ts1 rt1).db
        = dbAdd db (fingerprint (mkData f.name fa)) (to_json (mkData f.name fa))
            (to_json (resultRecord r ts1 rt1 out err))
    ∧ exists' (add db f args kwargs ts1 rt1).db f args kwargs = .ok true
    ∧ ∀ b2, add (add db f args kwargs ts1 rt1).db ⟨f.name, f.params, b2⟩
          args kwargs ts2 rt2
        = ⟨(add db f args kwargs ts1 rt1).db, [], none⟩ := by
  have hadd : add db f args kwargs ts1 rt1
      = ⟨dbAdd db (fingerprint (mkData f.name fa)) (to_json (mkData f.name fa))
          (to_json (resultRecord r ts1 rt1 out err)), ["."], none⟩ := by
    simp [add, hex, run, hfa, hbody]
  have hex1 : exists' (add db f args kwargs ts1 rt1).db f args kwargs = .ok true := by
    rw [hadd]
    exact exists'_dbAdd_self db f args kwargs fa _ hfa
  refine ⟨by rw [hadd], hex1, ?_⟩
  intro b2
  have hdata := getArgData_eq_of_sig (⟨f.name, f.params, b2⟩ : PyFunc) f rfl rfl args kwargs
  set db1 := (add db f args kwargs ts1 rt1).db with hdb1
  have hex2 : exists' db1 ⟨f.name, f.params, b2⟩ args kwargs = .ok true := by
    simp only [exists'] at hex1 ⊢
    rw [hdata]
    exact hex1
  simp [add, hex2]

/-- Witness for C2 at the call `okFunc(1)` on an empty store. -/
theorem add_runs_only_when_absent_witness :
    exists' [] okFunc [.num 1] [] = .ok false
    ∧ funcArgs okFunc [.num 1] [] = .ok faFix
    ∧ okFunc.body faFix = .ok (.obj [("r1", .num 1), ("r2", .str "test")], "out", "err")
    ∧ ((add [] okFunc [.num 1] [] "t1" 3).db
          = dbAdd [] (fingerprint (mkData okFunc.name faFix))
              (to_json (mkData okFunc.name faFix))
              (to_json (resultRecord (.obj [("r1", .num 1), ("r2", .str "test")])
                "t1" 3 "out" "err"))
        ∧ exists' (add [] okFunc [.num 1] [] "t1" 3).db okFunc [.num 1] [] = .ok true
        ∧ ∀ b2, add (add [] okFunc [.num 1] [] "t1" 3).db
              ⟨okFunc.name, okFunc.params, b2⟩ [.num 1] [] "t2" 9
            = ⟨(add [] okFunc [.num 1] [] "t1" 3).db, [], none⟩) :=
  ⟨rfl, rfl, rfl,
   add_runs_only_when_absent [] okFunc [.num 1] [] faFix "t1" "t2" 3 9
     (.obj [("r1", .num 1), ("r2", .str "test")]) "out" "err" rfl rfl rfl⟩

/-- C8: the identity of a computation is its callable's name plus the
filtered, default-merged argument map: two callables with the same name and
signature produce identical argument data regardless of their bodies, and
adding a computation under one makes the existence check true for the
other. -/
theorem identity_determined_by_name_and_args (db : Db) (g g2 : PyFunc)
    (args : List JValue) (kwargs fa : List (String × JValue)) (ts : String)
    (rt : Int) (r : JValue) (out err : String)
    (hname : g.name = g2.name) (hparams : g.params = g2.params)
    (hex : exists' db g args kwargs = .ok false)
    (hfa : funcArgs g args kwargs = .ok fa)
    (hbody : g.body fa = .ok (r, out, err)) :
    getArgData g args kwargs = getArgData g2 args kwargs
    ∧ exists' (add db g args kwargs ts rt).db g2 args kwargs = .ok true := by
  have hdata := getArgData_eq_of_sig g g2 hname hparams args kwargs
  have hadd : add db g args kwargs ts rt
      = ⟨dbAdd db (fingerprint (mkData g.name fa)) (to_json (mkData g.name fa))
          (to_json (resultRecord r ts rt out err)), ["."], none⟩ := by
    simp [add, hex, run, hfa, hbody]
  refine ⟨hdata, ?_⟩
  have hex1 := exists'_dbAdd_self db g args kwargs fa
    (to_json (resultRecord r ts rt out err)) hfa
  simp only [exists'] at hex1 ⊢
  rw [hadd, ← hdata]
  exact hex1

/-- Witness for C8: `okFunc` and `okFuncAlt` share name and signature but
have different bodies; adding `okFunc(1)` makes `okFuncAlt(1)` exist. -/
theorem identity_determined_by_name_and_args_witness :
    okFunc.name = okFuncAlt.name
    ∧ okFunc.params = okFuncAlt.params
    ∧ exists' [] okFunc [.num 1] [] = .ok false
    ∧ funcArgs okFunc [.num 1] [] = .ok faFix
    ∧ okFunc.body faFix = .ok (.obj [("r1", .num 1), ("r2", .str "test")], "out", "err")
    ∧ (getArgData okFunc [.num 1] [] = getArgData okFuncAlt [.num 1] []
        ∧ exists' (add [] okFunc [.num 1] [] "t1" 3).db okFuncAlt [.num 1] []
            = .ok true) :=
  ⟨rfl, rfl, rfl, rfl, rfl,
   identity_determined_by_name_and_args [] okFunc okFuncAlt [.num 1] [] faFix
     "t1" 3 (.obj [("r1", .num 1), ("r2", .str "test")]) "out" "err"
     rfl rfl rfl rfl rfl⟩

end Benchmark

namespace Benchmark

/-- Filtering out underscore keys identifies maps that agree on keys and on
all non-underscore values. -/
theorem filter_underscore_eq_of_forall₂ (m1 m2 : List (String × JValue))
    (hrel : List.Forall₂ (fun kv1 kv2 => kv1.1 = kv2.1
      ∧ (startsWithUnderscore kv1.1 = false → kv1.2 = kv2.2)) m1 m2) :
    m1.filter (fun kv => !startsWithUnderscore kv.1)
      = m2.filter (fun kv => !startsWithUnderscore kv.1) := by
  induction hrel with
  | nil => rfl
  | cons h _ ih =>
    rename_i a b l1 l2 _
    by_cases hu : startsWithUnderscore a.1 = false
    · have hab : a = b := Prod.ext h.1 (h.2 hu)
      simp [List.filter_cons, hab, ih]
    · have hbu : startsWithUnderscore b.1 = true := by
        rw [← h.1]
        exact eq_true_of_ne_false hu
      have hau : startsWithUnderscore a.1 = true := eq_true_of_ne_false hu
      simp [List.filter_cons, hau, hbu, ih]

/-- C4: parameters whose name begins with an underscore are excluded from
both the fingerprint and the stored argument data: two calls whose merged
argument maps agree on keys and on every non-underscore value produce the
same fingerprint and the same serialized parameter record. -/
theorem underscore_params_not_identifying (f : PyFunc) (args1 args2 : List JValue)
    (kwargs1 kwargs2 m1 m2 : List (String × JValue))
    (h1 : funcArgs f args1 kwargs1 = .ok m1)
    (h2 : funcArgs f args2 kwargs2 = .ok m2)
    (hrel : List.Forall₂ (fun kv1 kv2 => kv1.1 = kv2.1
      ∧ (startsWithUnderscore kv1.1 = false → kv1.2 = kv2.2)) m1 m2) :
    getArgData f args1 kwargs1 = getArgData f args2 kwargs2 := by
  have hfd := filter_underscore_eq_of_forall₂ m1 m2 hrel
  have hmk : mkData f.name m1 = mkData f.name m2 := by simp [mkData, hfd]
  simp [getArgData, h1, h2, Except.map, hmk]

/-- Witness for C4: the calls `okFunc(1, _test=None)` and `okFunc(1)`
differ only in the underscore parameter and get identical argument data. -/
theorem underscore_params_not_identifying_witness :
    funcArgs okFunc [.num 1] [("_test", .null)]
        = .ok [("_test", .null), ("default", .str "default"), ("x", .num 1)]
    ∧ funcArgs okFunc [.num 1] [] = .ok faFix
    ∧ getArgData okFunc [.num 1] [("_test", .null)] = getArgData okFunc [.num 1] [] :=
  ⟨rfl, rfl,
   underscore_params_not_identifying okFunc [.num 1] [.num 1] [("_test", .null)] []
     [("_test", .null), ("default", .str "default"), ("x", .num 1)] faFix rfl rfl
     (.cons ⟨rfl, fun h => absurd h (by decide)⟩
       (.cons ⟨rfl, fun _ => rfl⟩ (.cons ⟨rfl, fun _ => rfl⟩ .nil)))⟩

end Benchmark

/-- Totality of the lexicographic order on character lists. -/
theorem charLe_total : ∀ as bs : List Char, charLe as bs = true ∨ charLe bs as = true
  | [], _ => Or.inl rfl
  | _ :: _, [] => Or.inr rfl
  | a :: as, b :: bs => by
    by_cases hab : a = b
    · rcases hab with rfl
      rcases charLe_total as bs with h | h
      · exact Or.inl (by simp [charLe, h])
      · exact Or.inr (by simp [charLe, h])
    · rcases lt_or_gt_of_ne hab with h | h
      · exact Or.inl (by simp [charLe, hab, h])
      · exact Or.inr (by simp [charLe, show ¬b = a from fun he => hab he.symm, h])

/-- Transitivity of the lexicographic order on character lists. -/
theorem charLe_trans : ∀ as bs cs : List Char,
    charLe as bs = true → charLe bs cs = true → charLe as cs = true
  | [], _, _ => by intro _ _; rfl
  | _ :: _, [], _ => by intro h _; simp [charLe] at h
  | _ :: _, _ :: _, [] => by intro _ h; simp [charLe] at h
  | a :: as, b :: bs, c :: cs => by
    intro h1 h2
    by_cases hab : a = b <;> by_cases hbc : b = c
    · rcases hab with rfl; rcases hbc with rfl
      simp [charLe] at h1 h2 ⊢
      exact charLe_trans as bs cs h1 h2
    · rcases hab with rfl
      have h2' : a < c := by simpa [charLe, hbc] using h2
      simp [charLe, hbc, h2']
    · rcases hbc with rfl
      have h1' : a < b := by simpa [charLe, hab] using h1
      simp [charLe, hab, h1']
    · have h1' : a < b := by simpa [charLe, hab] using h1
      have h2' : b < c := by simpa [charLe, hbc] using h2
      have hac : a < c := lt_trans h1' h2'
      simp [charLe, ne_of_lt hac, hac]

/-- Antisymmetry of the lexicographic order on character lists. -/
theorem charLe_antisymm : ∀ as bs : List Char,
    charLe as bs = true → charLe bs as = true → as = bs
  | [], [] => fun _ _ => rfl
  | [], _ :: _ => by intro _ h; simp [charLe] at h
  | _ :: _, [] => by intro h _; simp [charLe] at h
  | a :: as, b :: bs => by
    intro h1 h2
    by_cases hab : a = b
    · rcases hab with rfl
      simp [charLe] at h1 h2
      rw [charLe_antisymm as bs h1 h2]
    · exfalso
      have h1' : a < b := by simpa [charLe, hab] using h1
      have h2' : b < a := by
        simpa [charLe, show ¬b = a from fun he => hab he.symm] using h2
      exact absurd h2' (lt_asymm h1')

/-- Totality of the lexicographic order on strings. -/
theorem strLe_total (a b : String) : strLe a b = true ∨ strLe b a = true :=
  charLe_total a.data b.data

/-- Transitivity of the lexicographic order on strings. -/
theorem strLe_trans (a b c : String) :
    strLe a b = true → strLe b c = true → strLe a c = true :=
  charLe_trans a.data b.data c.data

/-- Antisymmetry of the lexicographic order on strings. -/
theorem strLe_antisymm (a b : String) :
    strLe a b = true → strLe b a = true → a = b :=
  fun h1 h2 => String.ext (charLe_antisymm a.data b.data h1 h2)

instance : IsTotal (String × JValue) keyLe := ⟨fun a b => strLe_total a.1 b.1⟩

instance : IsTrans (String × JValue) keyLe := ⟨fun a b c => strLe_trans a.1 b.1 c.1⟩

/-- Sorting by key maps value-equal (permuted) field lists with duplicate
free keys to the same canonical field order. -/
theorem sortKeys_eq_of_perm (fs1 fs2 : List (String × JValue))
    (hperm : fs1.Perm fs2) (hnd : (fs1.map Prod.fst).Nodup) :
    sortKeys fs1 = sortKeys fs2 := by
  have hp1 : (sortKeys fs1).Perm fs1 := List.perm_insertionSort keyLe fs1
  have hp2 : (sortKeys fs2).Perm fs2 := List.perm_insertionSort keyLe fs2
  have hp : (sortKeys fs1).Perm (sortKeys fs2) := (hp1.trans hperm).trans hp2.symm
  have hs1 : List.Sorted keyLe (sortKeys fs1) := List.sorted_insertionSort keyLe fs1
  have hs2 : List.Sorted keyLe (sortKeys fs2) := List.sorted_insertionSort keyLe fs2
  have hnd1 : ((sortKeys fs1).map Prod.fst).Nodup := (hp1.map Prod.fst).nodup_iff.mpr hnd
  have hnd2 : ((sortKeys fs2).map Prod.fst).Nodup := by
    have hfs2 : (fs2.map Prod.fst).Nodup := (hperm.map Prod.fst).nodup_iff.mp hnd
    exact (hp2.map Prod.fst).nodup_iff.mpr hfs2
  have hne1 : List.Pairwise (fun a b : String × JValue => a.1 ≠ b.1) (sortKeys fs1) :=
    List.pairwise_map.mp hnd1
  have hne2 : List.Pairwise (fun a b : String × JValue => a.1 ≠ b.1) (sortKeys fs2) :=
    List.pairwise_map.mp hnd2
  exact @List.eq_of_perm_of_sorted _ (fun a b => keyLe a b ∧ a.1 ≠ b.1)
    ⟨fun a b h1 h2 => absurd (strLe_antisymm a.1 b.1 h1.1 h2.1) h1.2⟩
    _ _ hp (hs1.and hne1) (hs2.and hne2)

/-- Field canonicalization acts as a map over the fields. -/
theorem canonicalFields_eq_map : ∀ fs : List (String × JValue),
    canonicalFields fs = fs.map fun kv => (kv.1, canonical kv.2)
  | [] => rfl
  | (k, v) :: rest => by simp [canonicalFields, canonicalFields_eq_map rest]

/-- Canonicalization sends value-equal (permuted) mappings with duplicate
free keys to the same canonical form. -/
theorem canonical_obj_eq_of_perm (fs1 fs2 : List (String × JValue))
    (hperm : fs1.Perm fs2) (hnd : (fs1.map Prod.fst).Nodup) :
    canonical (.obj fs1) = canonical (.obj fs2) := by
  have hcf : (canonicalFields fs1).Perm (canonicalFields fs2) := by
    rw [canonicalFields_eq_map, canonicalFields_eq_map]
    exact hperm.map _
  have hkeys : (canonicalFields fs1).map Prod.fst = fs1.map Prod.fst := by
    rw [canonicalFields_eq_map, List.map_map]
    rfl
  have hndc : ((canonicalFields fs1).map Prod.fst).Nodup := by rw [hkeys]; exact hnd
  simp only [canonical]
  rw [sortKeys_eq_of_perm (canonicalFields fs1) (canonicalFields fs2) hcf hndc]

/-- Keys of a dictionary stay duplicate free under a `dict.update` step. -/
theorem updateMerge_keys_nodup (upd : List (String × JValue)) :
    ∀ base : List (String × JValue), (base.map Prod.fst).Nodup →
      ((updateMerge base upd).map Prod.fst).Nodup := by
  induction upd with
  | nil => intro base h; exact h
  | cons kv upd ih =>
    intro base h
    have hfold : updateMerge base (kv :: upd)
        = updateMerge (if base.any (fun kv2 => kv2.1 = kv.1)
            then base.map (fun kv2 => if kv2.1 = kv.1 then (kv2.1, kv.2) else kv2)
            else base ++ [kv]) upd := rfl
    rw [hfold]
    by_cases hc : base.any (fun kv2 => kv2.1 = kv.1)
    · have hstep : ((base.map fun kv2 =>
          if kv2.1 = kv.1 then (kv2.1, kv.2) else kv2).map Prod.fst).Nodup := by
        rw [List.map_map]
        have hcomp : (Prod.fst ∘ fun kv2 : String × JValue =>
            if kv2.1 = kv.1 then (kv2.1, kv.2) else kv2) = Prod.fst := by
          funext kv2
          by_cases hk : kv2.1 = kv.1 <;> simp [hk]
        rw [hcomp]
        exact h
      simpa [hc] using ih _ hstep
    · have hmem : kv.1 ∉ base.map Prod.fst := by
        intro hm
        rcases List.mem_map.mp hm with ⟨kv2, hkv2, hfst⟩
        exact hc (List.any_eq_true.mpr ⟨kv2, hkv2, by simp [hfst]⟩)
      have hstep : ((base ++ [kv]).map Prod.fst).Nodup := by
        rw [List.map_append]
        simp [List.nodup_append, h, hmem]
      simpa [hc] using ih _ hstep

/-- Keys of the declared defaults form a sublist of the parameter names. -/
theorem defaults_keys_sublist (params : List Param) :
    ((params.filterMap fun p => p.default.map fun d => (p.name, d)).map
        Prod.fst).Sublist (params.map Param.name) := by
  induction params with
  | nil => simp
  | cons p ps ih =>
    cases hd : p.default with
    | none => simpa [List.filterMap_cons, hd] using ih.cons p.name
    | some d => simpa [List.filterMap_cons, hd] using ih.cons₂ p.name

/-- Merged argument mappings have duplicate free keys whenever the
callable's parameter names are duplicate free. -/
theorem funcArgs_keys_nodup (f : PyFunc) (args : List JValue)
    (kwargs m : List (String × JValue))
    (hparams : (f.params.map Param.name).Nodup)
    (h : Benchmark.funcArgs f args kwargs = .ok m) : (m.map Prod.fst).Nodup := by
  cases hb : bindArgs f.params args kwargs with
  | error e => simp [Benchmark.funcArgs, hb, Except.map] at h
  | ok bound =>
    simp only [Benchmark.funcArgs, hb, Except.map] at h
    cases h
    exact updateMerge_keys_nodup bound _
      (List.Nodup.sublist (defaults_keys_sublist f.params) hparams)

/-- Fingerprints of the argument-data dictionary agree whenever the inner
filtered argument mappings canonicalize equally. -/
theorem fingerprint_mkData_congr (fname : String) (l1 l2 : List (String × JValue))
    (h : canonical (.obj l1) = canonical (.obj l2)) :
    fingerprint (.obj [("func", .str fname), ("args", .obj l1)])
      = fingerprint (.obj [("func", .str fname), ("args", .obj l2)]) := by
  simp only [fingerprint, canonical, canonicalFields]
  simp only [canonical] at h
  rw [h]

namespace Benchmark

/-- C3: value-equal parameter sets — keyword arguments in different orders,
positional versus keyword passing, or a defaulted argument omitted versus
supplied with its default — merge to permuted argument mappings with the
same keys and values, and receive the same fingerprint from
`exists`/`run`/`add`. -/
theorem fingerprint_ignores_argument_order (f : PyFunc)
    (args1 args2 : List JValue) (kwargs1 kwargs2 m1 m2 : List (String × JValue))
    (hparams : (f.params.map Param.name).Nodup)
    (h1 : funcArgs f args1 kwargs1 = .ok m1)
    (h2 : funcArgs f args2 kwargs2 = .ok m2)
    (hperm : m1.Perm m2) :
    (getArgData f args1 kwargs1).map Prod.fst
      = (getArgData f args2 kwargs2).map Prod.fst := by
  have hnd1 := funcArgs_keys_nodup f args1 kwargs1 m1 hparams h1
  have hndf : ((m1.filter fun kv => !startsWithUnderscore kv.1).map Prod.fst).Nodup :=
    List.Nodup.sublist ((List.filter_sublist m1).map Prod.fst) hnd1
  have hfilters : canonical (.obj (m1.filter fun kv => !startsWithUnderscore kv.1))
      = canonical (.obj (m2.filter fun kv => !startsWithUnderscore kv.1)) :=
    canonical_obj_eq_of_perm _ _ (hperm.filter _) hndf
  have hfp : fingerprint (mkData f.name m1) = fingerprint (mkData f.name m2) := by
    simp only [mkData]
    exact fingerprint_mkData_congr f.name _ _ hfilters
  simp [getArgData, h1, h2, Except.map, hfp]

/-- Witness for C3: `twoParamFunc` called with the same keyword arguments
in the two possible orders gets the same fingerprint. -/
theorem fingerprint_ignores_argument_order_witness :
    (twoParamFunc.params.map Param.name).Nodup
    ∧ funcArgs twoParamFunc [] [("x", .num 1), ("y", .num 2)]
        = .ok [("x", .num 1), ("y", .num 2)]
    ∧ funcArgs twoParamFunc [] [("y", .num 2), ("x", .num 1)]
        = .ok [("y", .num 2), ("x", .num 1)]
    ∧ (getArgData twoParamFunc [] [("x", .num 1), ("y", .num 2)]).map Prod.fst
        = (getArgData twoParamFunc [] [("y", .num 2), ("x", .num 1)]).map Prod.fst :=
  ⟨by decide, rfl, rfl,
   fingerprint_ignores_argument_order twoParamFunc [] []
     [("x", JValue.num 1), ("y", JValue.num 2)] [("y", JValue.num 2), ("x", JValue.num 1)]
     [("x", JValue.num 1), ("y", JValue.num 2)] [("y", JValue.num 2), ("x", JValue.num 1)]
     (by decide) rfl rfl (List.Perm.swap ("y", JValue.num 2) ("x", JValue.num 1) [])⟩

end Benchmark

/-- Reading the object just past a heap prefix finds the appended object,
whatever follows. -/
theorem getElem_append_self (h : Heap) (o : PyObj) (tl : Heap) :
    (h ++ [o] ++ tl)[h.length]? = some o := by
  rw [List.append_assoc, List.getElem?_append_right (le_refl h.length)]
  simp

mutual

/-- Deserialization only appends fresh objects to the heap. -/
theorem materialize_fst_extends : ∀ (v : JValue) (h : Heap),
    ∃ δ, (materialize v h).1 = h ++ δ
  | .null, _ => ⟨[.val .null], rfl⟩
  | .bool b, _ => ⟨[.val (.bool b)], rfl⟩
  | .num n, _ => ⟨[.val (.num n)], rfl⟩
  | .str s, _ => ⟨[.val (.str s)], rfl⟩
  | .arr xs, _ => ⟨[.val (.arr xs)], rfl⟩
  | .obj fs, h => by
    rcases materializeFields_fst_extends fs h with ⟨δ, hδ⟩
    refine ⟨δ ++ [.dict (materializeFields fs h).2], ?_⟩
    show (materializeFields fs h).1 ++ [.dict (materializeFields fs h).2] = _
    rw [hδ, List.append_assoc]

/-- Field deserialization only appends fresh objects to the heap. -/
theorem materializeFields_fst_extends : ∀ (fs : List (String × JValue)) (h : Heap),
    ∃ δ, (materializeFields fs h).1 = h ++ δ
  | [], h => ⟨[], by simp [materializeFields]⟩
  | (k, v) :: rest, h => by
    rcases materialize_fst_extends v h with ⟨δ1, h1⟩
    rcases materializeFields_fst_extends rest (materialize v h).1 with ⟨δ2, h2⟩
    refine ⟨δ1 ++ δ2, ?_⟩
    show (materializeFields rest (materialize v h).1).1 = _
    rw [h2, h1, List.append_assoc]

end

mutual

/-- Reading back a freshly deserialized value recovers that value, in any
heap extending the deserialization's output (in particular heaps obtained
by later allocations or by mutations of other objects). -/
theorem readback_materialize : ∀ (v : JValue) (h tl : Heap) (fuel : Nat),
    jdepth v ≤ fuel →
    readback fuel ((materialize v h).1 ++ tl) (materialize v h).2 = some v
  | .null, h, tl, fuel, hf => by
    cases fuel with
    | zero => exact absurd hf (by simp [jdepth])
    | succ n =>
      have hget := getElem_append_self h (PyObj.val (JValue.null)) tl
      simp only [readback, materialize]
      rw [hget]
  | .bool b, h, tl, fuel, hf => by
    cases fuel with
    | zero => exact absurd hf (by simp [jdepth])
    | succ n =>
      have hget := getElem_append_self h (PyObj.val (JValue.bool b)) tl
      simp only [readback, materialize]
      rw [hget]
  | .num m, h, tl, fuel, hf => by
    cases fuel with
    | zero => exact absurd hf (by simp [jdepth])
    | succ n =>
      have hget := getElem_append_self h (PyObj.val (JValue.num m)) tl
      simp only [readback, materialize]
      rw [hget]
  | .str s, h, tl, fuel, hf => by
    cases fuel with
    | zero => exact absurd hf (by simp [jdepth])
    | succ n =>
      have hget := getElem_append_self h (PyObj.val (JValue.str s)) tl
      simp only [readback, materialize]
      rw [hget]
  | .arr xs, h, tl, fuel, hf => by
    cases fuel with
    | zero => exact absurd hf (by simp [jdepth])
    | succ n =>
      have hget := getElem_append_self h (PyObj.val (JValue.arr xs)) tl
      simp only [readback, materialize]
      rw [hget]
  | .obj fs, h, tl, fuel, hf => by
    cases fuel with
    | zero => exact absurd hf (by simp [jdepth])
    | succ n =>
      have hfn : jdepthFields fs ≤ n := by
        have : jdepthFields fs + 1 ≤ n + 1 := by simpa [jdepth] using hf
        omega
      have hflds := readbackFields_materializeFields fs h
        ([.dict (materializeFields fs h).2] ++ tl) n hfn
      have hget : ((materialize (.obj fs) h).1 ++ tl)[(materialize (.obj fs) h).2]?
          = some (.dict (materializeFields fs h).2) := by
        show ((materializeFields fs h).1 ++ [.dict (materializeFields fs h).2] ++ tl)[
          (materializeFields fs h).1.length]? = some _
        exact getElem_append_self _ _ _
      have harr : (materialize (.obj fs) h).1 ++ tl
          = (materializeFields fs h).1 ++ ([.dict (materializeFields fs h).2] ++ tl) := by
        show (materializeFields fs h).1 ++ [.dict (materializeFields fs h).2] ++ tl = _
        rw [List.append_assoc]
      simp only [readback, hget]
      rw [harr, hflds]
      rfl

/-- Reading back freshly deserialized fields recovers them, in any heap
extending the deserialization's output. -/
theorem readbackFields_materializeFields :
    ∀ (fs : List (String × JValue)) (h tl : Heap) (fuel : Nat),
      jdepthFields fs ≤ fuel →
      readbackFields fuel ((materializeFields fs h).1 ++ tl)
          (materializeFields fs h).2 = some fs
  | [], h, tl, fuel, _ => by simp [materializeFields, readbackFields]
  | (k, v) :: rest, h, tl, fuel, hf => by
    have hfv : jdepth v ≤ fuel := le_trans (le_max_left _ _) (by simpa [jdepthFields] using hf)
    have hfr : jdepthFields rest ≤ fuel :=
      le_trans (le_max_right _ _) (by simpa [jdepthFields] using hf)
    rcases materializeFields_fst_extends rest (materialize v h).1 with ⟨δ, hδ⟩
    have hv : readback fuel ((materializeFields rest (materialize v h).1).1 ++ tl)
        (materialize v h).2 = some v := by
      rw [hδ, List.append_assoc]
      exact readback_materialize v h (δ ++ tl) fuel hfv
    have hrest := readbackFields_materializeFields rest (materialize v h).1 tl fuel hfr
    show readbackFields fuel ((materializeFields rest (materialize v h).1).1 ++ tl)
        ((k, (materialize v h).2) :: (materializeFields rest (materialize v h).1).2)
      = some ((k, v) :: rest)
    simp [readbackFields, hv, hrest]

end

namespace Benchmark

/-- C6: every entry yielded by iteration is an independent copy safe to
mutate: after deserializing a stored entry, shallow-copying it as
`__iter__` does and mutating the copy in place at any key path (any
nesting depth), the store still holds the entry and a fresh scan
deserializes it to exactly its original value. -/
theorem iter_yields_independent_copies (db : Db) (e : Entry) (he : e ∈ iter db)
    (h0 : Heap) (p : List String) (v : JValue) :
    e ∈ db ∧ rescanEntry e (yieldAndMutate e h0 p v) = some (entryValue e) := by
  refine ⟨he, ?_⟩
  have h := readback_materialize (entryValue e) (yieldAndMutate e h0 p v) []
    (jdepth (entryValue e)) (le_refl _)
  simpa [rescanEntry] using h

/-- Witness for C6: a one-entry store scanned, shallow-copied, mutated at
a nested path, and re-scanned. -/
theorem iter_yields_independent_copies_witness :
    entryFix ∈ iter [entryFix]
    ∧ (entryFix ∈ [entryFix]
        ∧ rescanEntry entryFix (yieldAndMutate entryFix [] ["parameters", "x"] .null)
            = some (entryValue entryFix)) :=
  ⟨List.mem_singleton.mpr rfl,
   iter_yields_independent_copies [entryFix] entryFix (List.mem_singleton.mpr rfl)
     [] ["parameters", "x"] .null⟩

end Benchmark
